import Mathlib

/-!
Shallow embedding of the order/inventory service (Go sources under
`internal/domain`, `internal/repository`, `internal/service`).

Modelling conventions:
* `int64` is modelled as `Int`, `float64` prices as `Rat` (only sign
  comparisons occur in the embedded code paths).
* Go maps `map[int64]T` are modelled as association lists
  `List (Int × T)` with `alookup` / `aupsert` / `aerase`; an absent key
  reads as the zero value where the Go code relies on that
  (`qtyByProduct`, `consumed` are total functions `Int → Int` defaulting
  to 0, exactly Go's zero-value map reads).
* The `TxManager` only takes a process-wide lock; in this sequential
  embedding a transaction is the function body itself.  Mutation of the
  shared store is made explicit: every service operation returns
  `Except Err α × MemoryStore`, where the second component is the store
  as left behind (also on failure, since the coordinator performs no
  rollback).
* `CreatedAt` / `UpdatedAt` timestamps are omitted: no embedded claim
  mentions them and `time.Now()` is not part of the pure model.
* Go map iteration (`for _, p := range productCopies`) has unspecified
  order; the embedding iterates in insertion order.  All iterated
  updates target pairwise distinct keys, so the final store does not
  depend on that choice.
-/

namespace April

/-- `domain.Product` (src/internal/domain/models.go). -/
structure Product where
  ID : Int
  Name : String
  SKU : String
  Price : Rat
  Stock : Int
deriving DecidableEq, Repr

/-- `domain.OrderStatus` constants. -/
inductive OrderStatus where
  | Pending
  | Confirmed
  | Cancelled
deriving DecidableEq, Repr

/-- `domain.OrderItem`. -/
structure OrderItem where
  ProductID : Int
  Quantity : Int
deriving DecidableEq, Repr

/-- `domain.Order` (timestamps omitted, see header). -/
structure Order where
  ID : Int
  CustomerName : String
  Items : List OrderItem
  Status : OrderStatus
deriving DecidableEq, Repr

/-- Error kinds: `repository.ErrNotFound`, `service.ErrInvalidInput`,
`service.ErrNotEnoughStock`, `service.ErrInvalidState`. -/
inductive Err where
  | ErrInvalidInput
  | ErrNotFound
  | ErrNotEnoughStock
  | ErrInvalidState
deriving DecidableEq, Repr

/-- Association-list read, modelling `m[k]` presence lookup on a Go map. -/
def alookup {α : Type} : List (Int × α) → Int → Option α
  | [], _ => none
  | (k, v) :: rest, key => if k = key then some v else alookup rest key

/-- Association-list write, modelling `m[k] = v` on a Go map. -/
def aupsert {α : Type} : List (Int × α) → Int → α → List (Int × α)
  | [], k, v => [(k, v)]
  | (k', v') :: rest, k, v =>
      if k' = k then (k, v) :: rest else (k', v') :: aupsert rest k v

/-- Association-list delete, modelling `delete(m, k)` on a Go map. -/
def aerase {α : Type} : List (Int × α) → Int → List (Int × α)
  | [], _ => []
  | (k', v') :: rest, k => if k' = k then rest else (k', v') :: aerase rest k

/-- Two's-complement `int64` wraparound: Go's signed 64-bit arithmetic
reduces every result into [-2^63, 2^63).  The numerals are 2^63 and
2^64.  Additions that can leave the range (the `p.Stock += ...` stock
restorations of CancelOrder and PartialReturn) are passed through this;
the stock subtraction of CreateOrder is check-guarded
(`0 ≤ stock - qty ≤ stock`) and therefore exact on representable
values. -/
def wrap64 (n : Int) : Int :=
  (n + 9223372036854775808) % 18446744073709551616 - 9223372036854775808

/-- `repository.MemoryStore` (src/internal/repository/memory.go): the two
keyed maps plus the two monotone ID counters.  The mutex and the
context-carried transaction flag have no content in the sequential
embedding. -/
structure MemoryStore where
  nextProdID : Int
  nextOrderID : Int
  productsByID : List (Int × Product)
  ordersByID : List (Int × Order)
deriving DecidableEq, Repr

/-- `NewMemoryStore()`. -/
def NewMemoryStore : MemoryStore :=
  { nextProdID := 1, nextOrderID := 1, productsByID := [], ordersByID := [] }

/-- `MemoryStore.Create` for products: assigns the next product ID and
stores the record. -/
def MemoryStore.Create (m : MemoryStore) (p : Product) : Product × MemoryStore :=
  let p' := { p with ID := m.nextProdID }
  (p', { m with
          nextProdID := m.nextProdID + 1,
          productsByID := aupsert m.productsByID p'.ID p' })

/-- `MemoryStore.GetByID` for products; returns a (value) copy or
`ErrNotFound`. -/
def MemoryStore.GetByID (m : MemoryStore) (id : Int) : Except Err Product :=
  match alookup m.productsByID id with
  | none => .error .ErrNotFound
  | some p => .ok p

/-- `MemoryStore.Update` for products: keyed by `p.ID`, `ErrNotFound` when
absent. -/
def MemoryStore.Update (m : MemoryStore) (p : Product) : Except Err MemoryStore :=
  match alookup m.productsByID p.ID with
  | none => .error .ErrNotFound
  | some _ => .ok { m with productsByID := aupsert m.productsByID p.ID p }

/-- `MemoryStore.Delete` for products. -/
def MemoryStore.Delete (m : MemoryStore) (id : Int) : Except Err MemoryStore :=
  match alookup m.productsByID id with
  | none => .error .ErrNotFound
  | some _ => .ok { m with productsByID := aerase m.productsByID id }

/-- `MemoryOrders.Create`: assigns the next order ID and stores the
record. -/
def MemoryOrders.Create (m : MemoryStore) (o : Order) : Order × MemoryStore :=
  let o' := { o with ID := m.nextOrderID }
  (o', { m with
          nextOrderID := m.nextOrderID + 1,
          ordersByID := aupsert m.ordersByID o'.ID o' })

/-- `MemoryOrders.GetByID`. -/
def MemoryOrders.GetByID (m : MemoryStore) (id : Int) : Except Err Order :=
  match alookup m.ordersByID id with
  | none => .error .ErrNotFound
  | some o => .ok o

/-- `MemoryOrders.Update`: keyed by `o.ID`, `ErrNotFound` when absent. -/
def MemoryOrders.Update (m : MemoryStore) (o : Order) : Except Err MemoryStore :=
  match alookup m.ordersByID o.ID with
  | none => .error .ErrNotFound
  | some _ => .ok { m with ordersByID := aupsert m.ordersByID o.ID o }

/-- `ProductService.Create` (src/internal/service/product_service.go):
field validation, then repository create. -/
def ProductService.Create (m : MemoryStore) (p : Product) :
    Except Err Product × MemoryStore :=
  if p.Name = "" ∨ p.SKU = "" ∨ p.Price < 0 ∨ p.Stock < 0 then
    (.error .ErrInvalidInput, m)
  else
    let (p', m') := MemoryStore.Create m p
    (.ok p', m')

/-- `ProductService.Update`. -/
def ProductService.Update (m : MemoryStore) (p : Product) :
    Except Err Product × MemoryStore :=
  if p.ID ≤ 0 ∨ p.Name = "" ∨ p.Price < 0 ∨ p.Stock < 0 then
    (.error .ErrInvalidInput, m)
  else
    match MemoryStore.Update m p with
    | .error e => (.error e, m)
    | .ok m' => (.ok p, m')

/-- `ProductService.Delete`. -/
def ProductService.Delete (m : MemoryStore) (id : Int) :
    Except Err Unit × MemoryStore :=
  if id ≤ 0 then (.error .ErrInvalidInput, m)
  else
    match MemoryStore.Delete m id with
    | .error e => (.error e, m)
    | .ok m' => (.ok (), m')

/-- The `load and check stock` loop of `OrderService.CreateOrder`
(README-embedded order_service.go): each line item re-reads the product
from the store `m` (which is unchanged throughout the loop), checks that
single item's quantity against that read, and writes the decremented
copy into `productCopies` keyed by `p.ID` — a later line item for the
same product overwrites the earlier copy. -/
def reserveLoop (m : MemoryStore) (copies : List (Int × Product)) :
    List OrderItem → Except Err (List (Int × Product))
  | [] => .ok copies
  | it :: rest =>
    match MemoryStore.GetByID m it.ProductID with
    | .error e => .error e
    | .ok p =>
      if p.Stock < it.Quantity then .error .ErrNotEnoughStock
      else
        reserveLoop m
          (aupsert copies p.ID { p with Stock := p.Stock - it.Quantity }) rest

/-- The `persist product stock updates` loop of `CreateOrder`:
`products.Update` on each accumulated copy, in insertion order (see
header note on Go map iteration); the store reached so far is returned
also when an update fails, since updates already applied stay applied. -/
def applyUpdates (m : MemoryStore) :
    List (Int × Product) → Except Err Unit × MemoryStore
  | [] => (.ok (), m)
  | (_, p) :: rest =>
    match MemoryStore.Update m p with
    | .error e => (.error e, m)
    | .ok m' => applyUpdates m' rest

/-- `OrderService.CreateOrder`: field validation outside the
transaction, then reserve loop, persist loop, and order creation with
status `Confirmed` and the original (unaggregated) item list. -/
def OrderService.CreateOrder (m : MemoryStore) (customer : String)
    (items : List OrderItem) : Except Err Order × MemoryStore :=
  if customer = "" ∨ items = [] then (.error .ErrInvalidInput, m)
  else if items.any (fun it => it.ProductID ≤ 0 ∨ it.Quantity ≤ 0) then
    (.error .ErrInvalidInput, m)
  else
    match reserveLoop m [] items with
    | .error e => (.error e, m)
    | .ok copies =>
      match applyUpdates m copies with
      | (.error e, m') => (.error e, m')
      | (.ok _, m') =>
        let o : Order :=
          { ID := 0, CustomerName := customer, Items := items,
            Status := .Confirmed }
        let (o', m'') := MemoryOrders.Create m' o
        (.ok o', m'')

/-- `OrderService.GetOrder`. -/
def OrderService.GetOrder (m : MemoryStore) (id : Int) : Except Err Order :=
  if id ≤ 0 then .error .ErrInvalidInput
  else MemoryOrders.GetByID m id

/-- The `return stock` loop of `OrderService.CancelOrder`: per line item,
fetch the product and persist `Stock + Quantity` immediately before the
next item; on a mid-loop failure the partially restored store is kept. -/
def restoreLoop (m : MemoryStore) :
    List OrderItem → Except Err Unit × MemoryStore
  | [] => (.ok (), m)
  | it :: rest =>
    match MemoryStore.GetByID m it.ProductID with
    | .error e => (.error e, m)
    | .ok p =>
      match MemoryStore.Update m
          { p with Stock := wrap64 (p.Stock + it.Quantity) } with
      | .error e => (.error e, m)
      | .ok m' => restoreLoop m' rest

/-- `OrderService.CancelOrder`. -/
def OrderService.CancelOrder (m : MemoryStore) (id : Int) :
    Except Err Order × MemoryStore :=
  if id ≤ 0 then (.error .ErrInvalidInput, m)
  else
    match MemoryOrders.GetByID m id with
    | .error e => (.error e, m)
    | .ok o =>
      if o.Status ≠ .Confirmed then (.error .ErrInvalidState, m)
      else
        match restoreLoop m o.Items with
        | (.error e, m') => (.error e, m')
        | (.ok _, m') =>
          let o' := { o with Status := .Cancelled }
          match MemoryOrders.Update m' o' with
          | .error e => (.error e, m')
          | .ok m'' => (.ok o', m'')

/-- Accumulated quantity per product over a list of line items: the value
`qtyByProduct[pid]` after Go's `qtyByProduct[it.ProductID] += it.Quantity`
loop (an absent key reads as 0), and equally the `totalReturn` inner-loop
sum over `returns`. -/
def sumQtyFor : List OrderItem → Int → Int
  | [], _ => 0
  | it :: rest, pid =>
      (if it.ProductID = pid then it.Quantity else 0) + sumQtyFor rest pid

/-- The `apply returns to order items and restore stock` loop of
`OrderService.PartialReturn`.  `consumed` models the Go map of the same
name (absent key reads 0); `acc` is `newItems` built so far.  The dead Go
variable `remainingToReturn` is not modelled.  Stock restorations are
persisted per item; a mid-loop failure keeps the store mutated so far. -/
def returnWalk (m : MemoryStore) (returns : List OrderItem)
    (consumed : Int → Int) (acc : List OrderItem) :
    List OrderItem → Except Err (List OrderItem) × MemoryStore
  | [] => (.ok acc, m)
  | it :: rest =>
    let ret := consumed it.ProductID
    let totalReturn := sumQtyFor returns it.ProductID
    if ret ≥ totalReturn then
      returnWalk m returns consumed (acc ++ [it]) rest
    else
      let canReturn := it.Quantity
      let needReturn := totalReturn - ret
      if needReturn < canReturn then
        match MemoryStore.GetByID m it.ProductID with
        | .error e => (.error e, m)
        | .ok p =>
          match MemoryStore.Update m
              { p with Stock := wrap64 (p.Stock + needReturn) } with
          | .error e => (.error e, m)
          | .ok m' =>
            returnWalk m' returns
              (fun k => if k = it.ProductID then ret + needReturn else consumed k)
              (acc ++ [{ it with Quantity := it.Quantity - needReturn }]) rest
      else if needReturn = canReturn then
        match MemoryStore.GetByID m it.ProductID with
        | .error e => (.error e, m)
        | .ok p =>
          match MemoryStore.Update m
              { p with Stock := wrap64 (p.Stock + needReturn) } with
          | .error e => (.error e, m)
          | .ok m' =>
            returnWalk m' returns
              (fun k => if k = it.ProductID then ret + needReturn else consumed k)
              acc rest
      else
        match MemoryStore.GetByID m it.ProductID with
        | .error e => (.error e, m)
        | .ok p =>
          match MemoryStore.Update m
              { p with Stock := wrap64 (p.Stock + canReturn) } with
          | .error e => (.error e, m)
          | .ok m' =>
            returnWalk m' returns
              (fun k => if k = it.ProductID then ret + canReturn else consumed k)
              acc rest

/-- `OrderService.PartialReturn`: field validation, order fetch, status
check, the per-entry over-return check (each `returns` entry is compared
on its own against the held quantity), then the reconciliation walk and
the order update (status left as it was, i.e. `Confirmed`). -/
def OrderService.PartialReturn (m : MemoryStore) (id : Int)
    (returns : List OrderItem) : Except Err Order × MemoryStore :=
  if id ≤ 0 ∨ returns = [] then (.error .ErrInvalidInput, m)
  else if returns.any (fun r => r.ProductID ≤ 0 ∨ r.Quantity ≤ 0) then
    (.error .ErrInvalidInput, m)
  else
    match MemoryOrders.GetByID m id with
    | .error e => (.error e, m)
    | .ok o =>
      if o.Status ≠ .Confirmed then (.error .ErrInvalidState, m)
      else if returns.any (fun r => sumQtyFor o.Items r.ProductID < r.Quantity) then
        (.error .ErrInvalidInput, m)
      else
        match returnWalk m returns (fun _ => 0) [] o.Items with
        | (.error e, m') => (.error e, m')
        | (.ok newItems, m') =>
          let o' := { o with Items := newItems }
          match MemoryOrders.Update m' o' with
          | .error e => (.error e, m')
          | .ok m'' => (.ok o', m'')

/-- Quantity of the last submitted line item referencing `pid`, when any. -/
def lastItemQty : List OrderItem → Int → Option Int
  | [], _ => none
  | it :: rest, pid =>
    match lastItemQty rest pid with
    | some q => some q
    | none => if it.ProductID = pid then some it.Quantity else none

/-- Store well-formedness: the ID counters are positive (they start at 1
and only increment), every stored record carries the key it is stored
under (`Create` sets `ID` to the key, `Update` is keyed by `ID`), and
every stored stock is an `int64` value, i.e. lies in [-2^63, 2^63) — in
Go the field has that type, so every store reachable by the program
satisfies all of this. -/
def StoreWF (m : MemoryStore) : Prop :=
  0 < m.nextProdID ∧ 0 < m.nextOrderID ∧
  (∀ e ∈ m.productsByID, (e.2).ID = e.1) ∧
  (∀ e ∈ m.ordersByID, (e.2).ID = e.1) ∧
  (∀ e ∈ m.productsByID,
    -9223372036854775808 ≤ (e.2).Stock ∧ (e.2).Stock < 9223372036854775808)

instance (m : MemoryStore) : Decidable (StoreWF m) := by
  unfold StoreWF; infer_instance

/-- `m'` differs from `m` exactly by adding `δ pid` to the stock of every
stored product in `int64` arithmetic (products absent from `m` are
absent from `m'`). -/
def ProductsShifted (m m' : MemoryStore) (δ : Int → Int) : Prop :=
  ∀ pid, alookup m'.productsByID pid =
    (alookup m.productsByID pid).map
      (fun p => { p with Stock := wrap64 (p.Stock + δ pid) })

/-- One externally invocable mutating operation, for the sequence-based
invariant claim. -/
inductive Op where
  | ProductCreate (p : Product)
  | ProductUpdate (p : Product)
  | ProductDelete (id : Int)
  | CreateOrder (customer : String) (items : List OrderItem)
  | CancelOrder (id : Int)
  | PartialReturn (id : Int) (returns : List OrderItem)

/-- The store an operation leaves behind (also on failure: the
coordinator performs no rollback). -/
def Op.apply (m : MemoryStore) : Op → MemoryStore
  | .ProductCreate p => (ProductService.Create m p).2
  | .ProductUpdate p => (ProductService.Update m p).2
  | .ProductDelete id => (ProductService.Delete m id).2
  | .CreateOrder c items => (OrderService.CreateOrder m c items).2
  | .CancelOrder id => (OrderService.CancelOrder m id).2
  | .PartialReturn id rs => (OrderService.PartialReturn m id rs).2

/-- Run a sequence of operations left to right. -/
def runOps (m : MemoryStore) : List Op → MemoryStore
  | [] => m
  | op :: rest => runOps (Op.apply m op) rest

/-! ### Association-list lemmas -/

theorem alookup_aupsert {α : Type} (l : List (Int × α)) (k : Int) (v : α)
    (x : Int) :
    alookup (aupsert l k v) x = if k = x then some v else alookup l x := by
  induction l with
  | nil => simp [aupsert, alookup]
  | cons e rest ih =>
    obtain ⟨k', v'⟩ := e
    by_cases hk : k' = k
    · subst hk
      by_cases hx : k' = x <;> simp [aupsert, alookup, hx]
    · by_cases hx : k' = x
      · subst hx
        simp [aupsert, alookup, hk, Ne.symm hk]
      · simp [aupsert, alookup, hk, hx, ih]

theorem alookup_mem {α : Type} {l : List (Int × α)} {k : Int} {v : α}
    (h : alookup l k = some v) : (k, v) ∈ l := by
  induction l with
  | nil => simp [alookup] at h
  | cons e rest ih =>
    obtain ⟨k', v'⟩ := e
    by_cases hk : k' = k
    · subst hk
      simp [alookup] at h
      simp [h]
    · simp [alookup, hk] at h
      exact List.mem_cons_of_mem _ (ih h)

theorem aupsert_forall {α : Type} {P : Int × α → Prop} {l : List (Int × α)}
    {k : Int} {v : α} (hl : ∀ e ∈ l, P e) (hv : P (k, v)) :
    ∀ e ∈ aupsert l k v, P e := by
  induction l with
  | nil => simpa [aupsert] using hv
  | cons e rest ih =>
    obtain ⟨k', v'⟩ := e
    by_cases hk : k' = k
    · subst hk
      intro e he
      simp [aupsert] at he
      rcases he with he | he
      · subst he; exact hv
      · exact hl _ (List.mem_cons_of_mem _ he)
    · intro e he
      simp only [aupsert, if_neg hk, List.mem_cons] at he
      rcases he with he | he
      · subst he; exact hl _ (List.mem_cons_self _ _)
      · exact ih (fun e' he' => hl _ (List.mem_cons_of_mem _ he')) _ he

theorem aerase_mem {α : Type} {l : List (Int × α)} {k : Int} {e : Int × α}
    (h : e ∈ aerase l k) : e ∈ l := by
  induction l with
  | nil => simp [aerase] at h
  | cons e' rest ih =>
    obtain ⟨k', v'⟩ := e'
    by_cases hk : k' = k
    · subst hk
      simp only [aerase, if_pos rfl] at h
      exact List.mem_cons_of_mem _ h
    · simp only [aerase, if_neg hk, List.mem_cons] at h
      rcases h with h | h
      · subst h; exact List.mem_cons_self _ _
      · exact List.mem_cons_of_mem _ (ih h)

theorem alookup_eq_none_of_lt {α : Type} {l : List (Int × α)} {k : Int}
    (h : ∀ e ∈ l, e.1 < k) : alookup l k = none := by
  induction l with
  | nil => rfl
  | cons e rest ih =>
    obtain ⟨k', v'⟩ := e
    have hk' : k' < k := h _ (List.mem_cons_self _ _)
    have : k' ≠ k := by omega
    simp [alookup, this]
    exact ih fun e he => h _ (List.mem_cons_of_mem _ he)

theorem mem_keys_aupsert {α : Type} {l : List (Int × α)} {k x : Int} {v : α}
    (h : x ∈ (aupsert l k v).map Prod.fst) :
    x ∈ l.map Prod.fst ∨ x = k := by
  induction l with
  | nil => simpa [aupsert] using h
  | cons e rest ih =>
    obtain ⟨k', v'⟩ := e
    by_cases hk : k' = k
    · subst hk
      simp [aupsert] at h
      rcases h with h | h
      · right; exact h
      · left; simp [h]
    · simp only [aupsert, if_neg hk, List.map_cons, List.mem_cons] at h
      rcases h with h | h
      · left; simp [h]
      · rcases ih h with h' | h'
        · left; simp only [List.map_cons, List.mem_cons]; right; exact h'
        · right; exact h'

theorem aupsert_keys_nodup {α : Type} {l : List (Int × α)} {k : Int} {v : α}
    (h : (l.map Prod.fst).Nodup) : ((aupsert l k v).map Prod.fst).Nodup := by
  induction l with
  | nil => simp [aupsert]
  | cons e rest ih =>
    obtain ⟨k', v'⟩ := e
    simp only [List.map_cons, List.nodup_cons] at h
    by_cases hk : k' = k
    · subst hk
      simpa [aupsert] using h
    · simp only [aupsert, if_neg hk, List.map_cons, List.nodup_cons]
      refine ⟨fun hmem => ?_, ih h.2⟩
      rcases mem_keys_aupsert hmem with h' | h'
      · exact h.1 h'
      · exact hk h'

theorem alookup_eq_none_of_not_key {α : Type} {l : List (Int × α)} {k : Int}
    (h : k ∉ l.map Prod.fst) : alookup l k = none := by
  induction l with
  | nil => rfl
  | cons e rest ih =>
    obtain ⟨k', v'⟩ := e
    simp only [List.map_cons, List.mem_cons] at h
    push_neg at h
    simp [alookup, Ne.symm h.1]
    exact ih h.2

/-! ### Well-formedness and stock-shift lemmas -/

theorem wf_product_id {m : MemoryStore} {k : Int} {p : Product}
    (hwf : StoreWF m) (h : alookup m.productsByID k = some p) : p.ID = k :=
  hwf.2.2.1 _ (alookup_mem h)

theorem wf_order_id {m : MemoryStore} {k : Int} {o : Order}
    (hwf : StoreWF m) (h : alookup m.ordersByID k = some o) : o.ID = k :=
  hwf.2.2.2.1 _ (alookup_mem h)

theorem wf_product_range {m : MemoryStore} {k : Int} {p : Product}
    (hwf : StoreWF m) (h : alookup m.productsByID k = some p) :
    -9223372036854775808 ≤ p.Stock ∧ p.Stock < 9223372036854775808 :=
  hwf.2.2.2.2 _ (alookup_mem h)

theorem wrap64_eq_self {n : Int} (h1 : -9223372036854775808 ≤ n)
    (h2 : n < 9223372036854775808) : wrap64 n = n := by
  unfold wrap64; omega

theorem wrap64_range (n : Int) :
    -9223372036854775808 ≤ wrap64 n ∧ wrap64 n < 9223372036854775808 := by
  unfold wrap64; constructor <;> omega

theorem wrap64_wrap64_add (a b : Int) :
    wrap64 (wrap64 a + b) = wrap64 (a + b) := by
  unfold wrap64; omega

theorem StoreWF.upsert_product {m : MemoryStore} {k : Int} {q : Product}
    (hwf : StoreWF m) (hq : q.ID = k)
    (hr : -9223372036854775808 ≤ q.Stock ∧ q.Stock < 9223372036854775808) :
    StoreWF { m with productsByID := aupsert m.productsByID k q } :=
  ⟨hwf.1, hwf.2.1, aupsert_forall hwf.2.2.1 hq, hwf.2.2.2.1,
    aupsert_forall hwf.2.2.2.2 hr⟩

theorem StoreWF.upsert_order {m : MemoryStore} {k : Int} {q : Order}
    (hwf : StoreWF m) (hq : q.ID = k) :
    StoreWF { m with ordersByID := aupsert m.ordersByID k q } :=
  ⟨hwf.1, hwf.2.1, hwf.2.2.1, aupsert_forall hwf.2.2.2.1 hq, hwf.2.2.2.2⟩

theorem ProductsShifted.zero {m : MemoryStore} (hwf : StoreWF m) :
    ProductsShifted m m (fun _ => 0) := by
  intro pid
  rcases h : alookup m.productsByID pid with - | p
  · simp
  · have hr := wf_product_range hwf h
    simp [wrap64_eq_self hr.1 hr.2]

theorem ProductsShifted.trans {m₁ m₂ m₃ : MemoryStore} {δ₁ δ₂ : Int → Int}
    (h₁ : ProductsShifted m₁ m₂ δ₁) (h₂ : ProductsShifted m₂ m₃ δ₂) :
    ProductsShifted m₁ m₃ (fun pid => δ₁ pid + δ₂ pid) := by
  intro pid
  rw [h₂ pid, h₁ pid]
  cases alookup m₁.productsByID pid <;> simp [wrap64_wrap64_add, add_assoc]

theorem ProductsShifted.congr {m m' : MemoryStore} {δ δ' : Int → Int}
    (h : ProductsShifted m m' δ) (hδ : ∀ x, δ x = δ' x) :
    ProductsShifted m m' δ' := by
  intro pid
  rw [h pid, ← hδ pid]

/-- A fetched product written back with `Stock + d` is exactly a
single-product stock shift. -/
theorem update_shifted {m : MemoryStore} {pid : Int} {p : Product} (d : Int)
    (hwf : StoreWF m) (h : alookup m.productsByID pid = some p) :
    MemoryStore.Update m { p with Stock := wrap64 (p.Stock + d) } =
      .ok { m with
              productsByID :=
                aupsert m.productsByID pid
                  { p with Stock := wrap64 (p.Stock + d) } } ∧
    ProductsShifted m
      { m with
          productsByID :=
            aupsert m.productsByID pid
              { p with Stock := wrap64 (p.Stock + d) } }
      (fun x => if x = pid then d else 0) := by
  have hid : p.ID = pid := wf_product_id hwf h
  constructor
  · simp [MemoryStore.Update, hid, h]
  · intro x
    simp only [alookup_aupsert]
    by_cases hx : pid = x
    · subst hx
      simp [h]
    · have hx' : x ≠ pid := fun hc => hx hc.symm
      simp only [if_neg hx, if_neg hx', add_zero]
      rcases h2 : alookup m.productsByID x with - | q
      · simp
      · have hr := wf_product_range hwf h2
        simp [wrap64_eq_self hr.1 hr.2]

/-- The stock-restoration loop of `CancelOrder`, destructed on success:
it bumps every product's stock by the summed quantities of the processed
items and touches nothing else. -/
theorem restoreLoop_ok_dest {items : List OrderItem} {m m₁ : MemoryStore}
    (hwf : StoreWF m) (h : restoreLoop m items = (.ok (), m₁)) :
    ProductsShifted m m₁ (fun pid => sumQtyFor items pid) ∧
    m₁.ordersByID = m.ordersByID ∧ m₁.nextProdID = m.nextProdID ∧
    m₁.nextOrderID = m.nextOrderID ∧ StoreWF m₁ := by
  induction items generalizing m with
  | nil =>
    simp only [restoreLoop, Prod.mk.injEq] at h
    obtain ⟨-, rfl⟩ := h
    exact ⟨(ProductsShifted.zero hwf).congr (by simp [sumQtyFor]), rfl, rfl, rfl, hwf⟩
  | cons it rest ih =>
    rcases hlk : alookup m.productsByID it.ProductID with - | p
    · simp [restoreLoop, MemoryStore.GetByID, hlk] at h
    · obtain ⟨hupd, hshift⟩ := update_shifted it.Quantity hwf hlk
      simp only [restoreLoop, MemoryStore.GetByID, hlk, hupd] at h
      have hid0 : p.ID = it.ProductID := wf_product_id hwf hlk
      have hwf' :=
        hwf.upsert_product (k := it.ProductID)
          (q := { p with Stock := wrap64 (p.Stock + it.Quantity) }) hid0
          (wrap64_range _)
      obtain ⟨hsh, hord, hnp, hno, hwf₁⟩ := ih hwf' h
      refine ⟨(hshift.trans hsh).congr ?_, hord, hnp, hno, hwf₁⟩
      intro x
      simp only [sumQtyFor]
      by_cases hx : it.ProductID = x
      · simp [hx]
      · have : x ≠ it.ProductID := fun hc => hx hc.symm
        simp [hx, this]

/-- The restoration loop succeeds whenever every referenced product is
present. -/
theorem restoreLoop_total {items : List OrderItem} {m : MemoryStore}
    (hwf : StoreWF m)
    (hex : ∀ it ∈ items, (alookup m.productsByID it.ProductID).isSome) :
    ∃ m₁, restoreLoop m items = (.ok (), m₁) := by
  induction items generalizing m with
  | nil => exact ⟨m, rfl⟩
  | cons it rest ih =>
    have hhd := hex it (List.mem_cons_self _ _)
    rcases hlk : alookup m.productsByID it.ProductID with - | p
    · rw [hlk] at hhd; simp at hhd
    · obtain ⟨hupd, -⟩ := update_shifted it.Quantity hwf hlk
      have hid0 : p.ID = it.ProductID := wf_product_id hwf hlk
      have hwf' :=
        hwf.upsert_product (k := it.ProductID)
          (q := { p with Stock := wrap64 (p.Stock + it.Quantity) }) hid0
          (wrap64_range _)
      obtain ⟨m₁, hrec⟩ := ih hwf' (fun it' hit' => by
        simp only [alookup_aupsert]
        by_cases hx : it.ProductID = it'.ProductID
        · simp [hx]
        · simp only [if_neg hx]
          exact hex it' (List.mem_cons_of_mem _ hit'))
      exact ⟨m₁, by simp only [restoreLoop, MemoryStore.GetByID, hlk, hupd]; exact hrec⟩

/-! ### Quantity-aggregation lemmas -/

theorem sumQtyFor_eq_zero {items : List OrderItem} {pid : Int}
    (h : ∀ it ∈ items, it.ProductID ≠ pid) : sumQtyFor items pid = 0 := by
  induction items with
  | nil => rfl
  | cons it rest ih =>
    simp only [sumQtyFor, if_neg (h it (List.mem_cons_self _ _)), zero_add]
    exact ih fun it' hit' => h it' (List.mem_cons_of_mem _ hit')

theorem lastItemQty_eq_none {items : List OrderItem} {pid : Int}
    (h : ∀ it ∈ items, it.ProductID ≠ pid) : lastItemQty items pid = none := by
  induction items with
  | nil => rfl
  | cons it rest ih =>
    simp only [lastItemQty,
      ih fun it' hit' => h it' (List.mem_cons_of_mem _ hit')]
    exact if_neg (h it (List.mem_cons_self _ _))

/-- When no product occurs twice, the last (i.e. only) line item for a
referenced product carries exactly the per-product summed demand. -/
theorem lastItemQty_nodup {items : List OrderItem} {it : OrderItem}
    (hnd : (items.map OrderItem.ProductID).Nodup) (hm : it ∈ items) :
    lastItemQty items it.ProductID = some it.Quantity ∧
    sumQtyFor items it.ProductID = it.Quantity := by
  induction items with
  | nil => simp at hm
  | cons it' rest ih =>
    simp only [List.map_cons, List.nodup_cons] at hnd
    rcases List.mem_cons.mp hm with rfl | hm'
    · have hrest : ∀ it'' ∈ rest, it''.ProductID ≠ it.ProductID := by
        intro it'' hit'' hc
        exact hnd.1 (hc ▸ List.mem_map_of_mem OrderItem.ProductID hit'')
      constructor
      · simp [lastItemQty, lastItemQty_eq_none hrest]
      · simp [sumQtyFor, sumQtyFor_eq_zero hrest]
    · have hne : it'.ProductID ≠ it.ProductID := by
        intro hc
        exact hnd.1 (hc ▸ List.mem_map_of_mem OrderItem.ProductID hm')
      obtain ⟨hl, hs⟩ := ih hnd.2 hm'
      constructor
      · simp [lastItemQty, hl]
      · simp [sumQtyFor, hs, if_neg hne]

/-! ### CreateOrder loop lemmas -/

/-- Contents of `productCopies` after the reserve loop: the copy held for
a referenced product comes from the unchanged store read, decremented by
the quantity of the *last* line item referencing it (later duplicates
overwrite earlier ones); unreferenced keys are untouched. -/
theorem reserveLoop_lookup {m : MemoryStore} {copies : List (Int × Product)}
    {items : List OrderItem} {copies' : List (Int × Product)}
    (hwf : StoreWF m) (h : reserveLoop m copies items = .ok copies') :
    ∀ pid,
      (lastItemQty items pid = none →
        alookup copies' pid = alookup copies pid) ∧
      (∀ q, lastItemQty items pid = some q →
        ∃ p, alookup m.productsByID pid = some p ∧
          alookup copies' pid = some { p with Stock := p.Stock - q }) := by
  induction items generalizing copies with
  | nil =>
    simp only [reserveLoop, Except.ok.injEq] at h
    subst h
    intro pid
    exact ⟨fun _ => rfl, fun q hq => by simp [lastItemQty] at hq⟩
  | cons it rest ih =>
    rcases hlk : alookup m.productsByID it.ProductID with - | p
    · simp [reserveLoop, MemoryStore.GetByID, hlk] at h
    · by_cases hstock : p.Stock < it.Quantity
      · simp [reserveLoop, MemoryStore.GetByID, hlk, hstock] at h
      · simp only [reserveLoop, MemoryStore.GetByID, hlk, if_neg hstock] at h
        have hid : p.ID = it.ProductID := wf_product_id hwf hlk
        intro pid
        have IH := ih h pid
        constructor
        · intro hnone
          rcases hrest : lastItemQty rest pid with - | q'
          · simp only [lastItemQty, hrest] at hnone
            have hne : it.ProductID ≠ pid := by
              by_contra hc
              simp [hc] at hnone
            rw [IH.1 hrest, alookup_aupsert]
            rw [hid]
            exact if_neg hne
          · simp [lastItemQty, hrest] at hnone
        · intro q hq
          rcases hrest : lastItemQty rest pid with - | q'
          · simp only [lastItemQty, hrest] at hq
            by_cases hpe : it.ProductID = pid
            · rw [if_pos hpe] at hq
              obtain rfl : it.Quantity = q := by
                simpa using hq
              subst hpe
              refine ⟨p, hlk, ?_⟩
              rw [IH.1 hrest, alookup_aupsert, hid, if_pos rfl]
            · simp [hpe] at hq
          · simp only [lastItemQty, hrest, Option.some.injEq] at hq
            exact hq ▸ IH.2 q' hrest

/-- Entries accumulated by the reserve loop: keys are present products,
values carry their key as `ID` and a non-negative `int64` stock (the
single-item check passed against the store read, and the guarded
difference `stock - qty` with `0 ≤ qty ≤ stock < 2^63` stays in
range, so Go computes it exactly). -/
theorem reserveLoop_entries {m : MemoryStore} {copies : List (Int × Product)}
    {items : List OrderItem} {copies' : List (Int × Product)}
    (hwf : StoreWF m) (h : reserveLoop m copies items = .ok copies')
    (hq : ∀ it ∈ items, 0 ≤ it.Quantity)
    (hpre : ∀ e ∈ copies,
      (alookup m.productsByID e.1).isSome ∧ (e.2).ID = e.1 ∧
        0 ≤ (e.2).Stock ∧ (e.2).Stock < 9223372036854775808) :
    ∀ e ∈ copies',
      (alookup m.productsByID e.1).isSome ∧ (e.2).ID = e.1 ∧
        0 ≤ (e.2).Stock ∧ (e.2).Stock < 9223372036854775808 := by
  induction items generalizing copies with
  | nil =>
    simp only [reserveLoop, Except.ok.injEq] at h
    subst h
    exact hpre
  | cons it rest ih =>
    rcases hlk : alookup m.productsByID it.ProductID with - | p
    · simp [reserveLoop, MemoryStore.GetByID, hlk] at h
    · by_cases hstock : p.Stock < it.Quantity
      · simp [reserveLoop, MemoryStore.GetByID, hlk, hstock] at h
      · simp only [reserveLoop, MemoryStore.GetByID, hlk, if_neg hstock] at h
        have hid : p.ID = it.ProductID := wf_product_id hwf hlk
        have hub := (wf_product_range hwf hlk).2
        have hq0 : 0 ≤ it.Quantity := hq it (List.mem_cons_self _ _)
        refine ih h (fun i hi => hq i (List.mem_cons_of_mem _ hi))
          (aupsert_forall hpre ?_)
        refine ⟨?_, rfl, ?_, ?_⟩
        · rw [hid, hlk]
          rfl
        · show 0 ≤ p.Stock - it.Quantity
          omega
        · show p.Stock - it.Quantity < 9223372036854775808
          omega

theorem reserveLoop_keys_nodup {m : MemoryStore} {copies : List (Int × Product)}
    {items : List OrderItem} {copies' : List (Int × Product)}
    (h : reserveLoop m copies items = .ok copies')
    (hpre : (copies.map Prod.fst).Nodup) : (copies'.map Prod.fst).Nodup := by
  induction items generalizing copies with
  | nil =>
    simp only [reserveLoop, Except.ok.injEq] at h
    subst h
    exact hpre
  | cons it rest ih =>
    rcases hlk : alookup m.productsByID it.ProductID with - | p
    · simp [reserveLoop, MemoryStore.GetByID, hlk] at h
    · by_cases hstock : p.Stock < it.Quantity
      · simp [reserveLoop, MemoryStore.GetByID, hlk, hstock] at h
      · simp only [reserveLoop, MemoryStore.GetByID, hlk, if_neg hstock] at h
        exact ih h (aupsert_keys_nodup hpre)

/-- If some referenced product is missing and every line item whose
product exists fits singly in stock, the reserve loop fails NotFound. -/
theorem reserveLoop_missing {m : MemoryStore} {copies : List (Int × Product)}
    {items : List OrderItem}
    (hfit : ∀ it ∈ items, ∀ p,
      alookup m.productsByID it.ProductID = some p → it.Quantity ≤ p.Stock)
    (hmiss : ∃ it ∈ items, alookup m.productsByID it.ProductID = none) :
    reserveLoop m copies items = .error .ErrNotFound := by
  induction items generalizing copies with
  | nil => simp at hmiss
  | cons it rest ih =>
    rcases hlk : alookup m.productsByID it.ProductID with - | p
    · simp [reserveLoop, MemoryStore.GetByID, hlk]
    · have hfit0 := hfit it (List.mem_cons_self _ _) p hlk
      have hstock : ¬ p.Stock < it.Quantity := by omega
      simp only [reserveLoop, MemoryStore.GetByID, hlk, if_neg hstock]
      obtain ⟨it', hit', hnone⟩ := hmiss
      rcases List.mem_cons.mp hit' with rfl | hm'
      · rw [hlk] at hnone; cases hnone
      · exact ih (fun i hi => hfit i (List.mem_cons_of_mem _ hi)) ⟨it', hm', hnone⟩

/-- If every referenced product exists and some single line item's
quantity exceeds its product's stock, the reserve loop fails
NotEnoughStock. -/
theorem reserveLoop_nes {m : MemoryStore} {copies : List (Int × Product)}
    {items : List OrderItem}
    (hex : ∀ it ∈ items, (alookup m.productsByID it.ProductID).isSome)
    (hbad : ∃ it ∈ items, ∃ p,
      alookup m.productsByID it.ProductID = some p ∧ p.Stock < it.Quantity) :
    reserveLoop m copies items = .error .ErrNotEnoughStock := by
  induction items generalizing copies with
  | nil => simp at hbad
  | cons it rest ih =>
    rcases hlk : alookup m.productsByID it.ProductID with - | p
    · have := hex it (List.mem_cons_self _ _)
      rw [hlk] at this; simp at this
    · by_cases hstock : p.Stock < it.Quantity
      · simp [reserveLoop, MemoryStore.GetByID, hlk, hstock]
      · simp only [reserveLoop, MemoryStore.GetByID, hlk, if_neg hstock]
        obtain ⟨it', hit', p', hp', hbad'⟩ := hbad
        rcases List.mem_cons.mp hit' with rfl | hm'
        · rw [hlk] at hp'
          obtain rfl : p = p' := by simpa using hp'
          omega
        · exact ih (fun i hi => hex i (List.mem_cons_of_mem _ hi))
            ⟨it', hm', p', hp', hbad'⟩

/-- The persist loop of `CreateOrder` succeeds on well-keyed, present,
duplicate-free copies and leaves exactly those copies in the store. -/
theorem applyUpdates_ok {m : MemoryStore} {copies : List (Int × Product)}
    (hwf : StoreWF m)
    (hpre : ∀ e ∈ copies, (alookup m.productsByID e.1).isSome ∧ (e.2).ID = e.1 ∧
      -9223372036854775808 ≤ (e.2).Stock ∧ (e.2).Stock < 9223372036854775808)
    (hnd : (copies.map Prod.fst).Nodup) :
    ∃ m', applyUpdates m copies = (.ok (), m') ∧
      (∀ pid, alookup m'.productsByID pid =
        match alookup copies pid with
        | some v => some v
        | none => alookup m.productsByID pid) ∧
      m'.ordersByID = m.ordersByID ∧ m'.nextProdID = m.nextProdID ∧
      m'.nextOrderID = m.nextOrderID ∧ StoreWF m' := by
  induction copies generalizing m with
  | nil =>
    exact ⟨m, rfl, fun pid => by simp [alookup], rfl, rfl, rfl, hwf⟩
  | cons e rest ih =>
    obtain ⟨k, p⟩ := e
    obtain ⟨hsome, hid, hlo, hhi⟩ := hpre _ (List.mem_cons_self _ _)
    rcases hq : alookup m.productsByID k with - | q
    · rw [hq] at hsome; simp at hsome
    · have hid' : p.ID = k := hid
      have hupd : MemoryStore.Update m p =
          .ok { m with productsByID := aupsert m.productsByID k p } := by
        simp [MemoryStore.Update, hid', hq]
      simp only [List.map_cons, List.nodup_cons] at hnd
      have hwf1 := hwf.upsert_product (k := k) (q := p) hid ⟨hlo, hhi⟩
      obtain ⟨m', hm', hlook, hord, hnp, hno, hwf'⟩ :=
        ih hwf1 (fun e' he' => by
          obtain ⟨hs, hi⟩ := hpre _ (List.mem_cons_of_mem _ he')
          refine ⟨?_, hi⟩
          show (alookup (aupsert m.productsByID k p) e'.1).isSome
          rw [alookup_aupsert]
          by_cases hk : k = e'.1
          · simp [hk]
          · simpa [hk] using hs) hnd.2
      refine ⟨m', by simp only [applyUpdates, hupd]; exact hm', ?_, hord, hnp, hno, hwf'⟩
      intro pid
      rw [hlook pid]
      by_cases hk : k = pid
      · subst hk
        have hnone : alookup rest k = none :=
          alookup_eq_none_of_not_key hnd.1
        simp [alookup, hnone, alookup_aupsert]
      · have : alookup ((k, p) :: rest) pid = alookup rest pid := by
          simp [alookup, hk]
        rw [this]
        cases alookup rest pid with
        | some v => rfl
        | none => simp [alookup_aupsert, hk]

/-- Full description of a successful `CreateOrder`: the returned order,
the order-store write, the counters, the per-product stock outcome
(last line item wins), and preservation of well-formedness. -/
theorem CreateOrder_ok_dest {m : MemoryStore} {c : String}
    {items : List OrderItem} {o : Order} {m₁ : MemoryStore}
    (hwf : StoreWF m) (h : OrderService.CreateOrder m c items = (.ok o, m₁)) :
    (c ≠ "" ∧ items ≠ []) ∧
    (∀ it ∈ items, 0 < it.ProductID ∧ 0 < it.Quantity) ∧
    o = { ID := m.nextOrderID, CustomerName := c, Items := items,
          Status := .Confirmed } ∧
    m₁.ordersByID = aupsert m.ordersByID m.nextOrderID o ∧
    m₁.nextOrderID = m.nextOrderID + 1 ∧ m₁.nextProdID = m.nextProdID ∧
    (∀ pid,
      (lastItemQty items pid = none →
        alookup m₁.productsByID pid = alookup m.productsByID pid) ∧
      (∀ q, lastItemQty items pid = some q →
        ∃ p, alookup m.productsByID pid = some p ∧
          alookup m₁.productsByID pid = some { p with Stock := p.Stock - q })) ∧
    StoreWF m₁ := by
  unfold OrderService.CreateOrder at h
  by_cases h1 : c = "" ∨ items = []
  · rw [if_pos h1] at h
    simp at h
  · rw [if_neg h1] at h
    by_cases h2 : items.any (fun it => it.ProductID ≤ 0 ∨ it.Quantity ≤ 0) = true
    · rw [if_pos h2] at h
      simp at h
    · rw [if_neg h2] at h
      have hval : ∀ it ∈ items, 0 < it.ProductID ∧ 0 < it.Quantity := by
        intro it hit
        have : ¬ (it.ProductID ≤ 0 ∨ it.Quantity ≤ 0) := by
          intro hcon
          apply h2
          simp only [List.any_eq_true]
          exact ⟨it, hit, by simpa using hcon⟩
        push_neg at this
        omega
      rcases hres : reserveLoop m [] items with e | copies
      · rw [hres] at h
        simp at h
      · rw [hres] at h
        dsimp only at h
        have hent := reserveLoop_entries hwf hres
          (fun it hit => le_of_lt (hval it hit).2) (by intro e he; simp at he)
        have hnd := reserveLoop_keys_nodup hres (by simp)
        obtain ⟨m', hm', hlook, hordeq, hnp, hno, hwf'⟩ :=
          applyUpdates_ok hwf (fun e he => ⟨(hent e he).1, (hent e he).2.1,
            by have := (hent e he).2.2.1; omega, (hent e he).2.2.2⟩) hnd
        rw [hm'] at h
        dsimp only at h
        simp only [MemoryOrders.Create, Prod.mk.injEq, Except.ok.injEq] at h
        obtain ⟨ho, hm₁⟩ := h
        push_neg at h1
        have hprod : ∀ pid,
            (lastItemQty items pid = none →
              alookup m₁.productsByID pid = alookup m.productsByID pid) ∧
            (∀ q, lastItemQty items pid = some q →
              ∃ p, alookup m.productsByID pid = some p ∧
                alookup m₁.productsByID pid =
                  some { p with Stock := p.Stock - q }) := by
          intro pid
          have hm₁p : m₁.productsByID = m'.productsByID := by
            rw [← hm₁]
          obtain ⟨hn, hs⟩ := reserveLoop_lookup hwf hres pid
          constructor
          · intro hnone
            rw [hm₁p, hlook pid, hn hnone]
            rfl
          · intro q hq
            obtain ⟨p, hp, hcp⟩ := hs q hq
            exact ⟨p, hp, by rw [hm₁p, hlook pid, hcp]⟩
        refine ⟨h1, hval, ?_, ?_, ?_, ?_, hprod, ?_⟩
        · rw [← ho, hno]
        · rw [← hm₁, ← ho, hordeq, hno]
        · rw [← hm₁, hno]
        · rw [← hm₁, hnp]
        · rw [← hm₁]
          refine ⟨?_, ?_, hwf'.2.2.1, ?_, hwf'.2.2.2.2⟩
          · exact hwf'.1
          · have := hwf.2.1
            have := hno
            show 0 < m'.nextOrderID + 1
            omega
          · exact aupsert_forall hwf'.2.2.2.1 rfl

/-- A failing `CreateOrder` leaves the store untouched: all reads and
checks precede all writes, and the persist loop cannot fail on a
well-keyed store. -/
theorem CreateOrder_err_unchanged {m : MemoryStore} {c : String}
    {items : List OrderItem} {e : Err} {m₁ : MemoryStore}
    (hwf : StoreWF m)
    (h : OrderService.CreateOrder m c items = (.error e, m₁)) : m₁ = m := by
  unfold OrderService.CreateOrder at h
  by_cases h1 : c = "" ∨ items = []
  · rw [if_pos h1] at h
    simp only [Prod.mk.injEq] at h
    exact h.2.symm
  · rw [if_neg h1] at h
    by_cases h2 : items.any (fun it => it.ProductID ≤ 0 ∨ it.Quantity ≤ 0) = true
    · rw [if_pos h2] at h
      simp only [Prod.mk.injEq] at h
      exact h.2.symm
    · rw [if_neg h2] at h
      have hval : ∀ it ∈ items, 0 ≤ it.Quantity := by
        intro it hit
        have : ¬ (it.ProductID ≤ 0 ∨ it.Quantity ≤ 0) := by
          intro hcon
          apply h2
          simp only [List.any_eq_true]
          exact ⟨it, hit, by simpa using hcon⟩
        push_neg at this
        omega
      rcases hres : reserveLoop m [] items with e' | copies
      · rw [hres] at h
        simp only [Prod.mk.injEq] at h
        exact h.2.symm
      · rw [hres] at h
        dsimp only at h
        have hent := reserveLoop_entries hwf hres hval (by intro e'' he; simp at he)
        have hnd := reserveLoop_keys_nodup hres (by simp)
        obtain ⟨m', hm', -⟩ :=
          applyUpdates_ok hwf (fun e'' he => ⟨(hent e'' he).1, (hent e'' he).2.1,
            by have := (hent e'' he).2.2.1; omega, (hent e'' he).2.2.2⟩) hnd
        rw [hm'] at h
        dsimp only at h
        simp [MemoryOrders.Create] at h

/-- Constructive description of a successful `CancelOrder` run. -/
theorem CancelOrder_builds {m : MemoryStore} {id : Int} {o : Order}
    {m₁ : MemoryStore} (hwf : StoreWF m) (hid : 0 < id)
    (hlk : alookup m.ordersByID id = some o) (hst : o.Status = .Confirmed)
    (hrl : restoreLoop m o.Items = (.ok (), m₁))
    (hords : m₁.ordersByID = m.ordersByID) :
    OrderService.CancelOrder m id =
      (.ok { o with Status := .Cancelled },
       { m₁ with
          ordersByID :=
            aupsert m₁.ordersByID id { o with Status := .Cancelled } }) := by
  have hoid : o.ID = id := wf_order_id hwf hlk
  unfold OrderService.CancelOrder
  rw [if_neg (by omega)]
  simp only [MemoryOrders.GetByID, hlk]
  rw [if_neg (by simp [hst])]
  rw [hrl]
  dsimp only
  have hupd : MemoryOrders.Update m₁ { o with Status := .Cancelled } =
      .ok { m₁ with
              ordersByID :=
                aupsert m₁.ordersByID id { o with Status := .Cancelled } } := by
    simp only [MemoryOrders.Update, hords, hoid, hlk]
  rw [hupd]

/-- Destructor for a successful `CancelOrder`. -/
theorem CancelOrder_ok_dest {m : MemoryStore} {id : Int} {o₁ : Order}
    {m₁ : MemoryStore} (hwf : StoreWF m)
    (h : OrderService.CancelOrder m id = (.ok o₁, m₁)) :
    0 < id ∧ ∃ o, alookup m.ordersByID id = some o ∧ o.Status = .Confirmed ∧
      o₁ = { o with Status := .Cancelled } ∧
      alookup m₁.ordersByID id = some o₁ ∧
      ProductsShifted m m₁ (fun pid => sumQtyFor o.Items pid) ∧
      m₁.nextProdID = m.nextProdID ∧ m₁.nextOrderID = m.nextOrderID ∧
      StoreWF m₁ := by
  unfold OrderService.CancelOrder at h
  by_cases hid : id ≤ 0
  · rw [if_pos hid] at h
    simp at h
  · rw [if_neg hid] at h
    rcases hlk : alookup m.ordersByID id with - | o
    · simp [MemoryOrders.GetByID, hlk] at h
    · simp only [MemoryOrders.GetByID, hlk] at h
      by_cases hst : o.Status = .Confirmed
      · rw [if_neg (by simp [hst])] at h
        rcases hrl : restoreLoop m o.Items with ⟨res, m'⟩
        rw [hrl] at h
        cases res with
        | error e => simp at h
        | ok u =>
          cases u
          dsimp only at h
          obtain ⟨hsh, hords, hnp, hno, hwf'⟩ := restoreLoop_ok_dest hwf hrl
          have hoid : o.ID = id := wf_order_id hwf hlk
          have hupd : MemoryOrders.Update m' { o with Status := .Cancelled } =
              .ok { m' with
                      ordersByID :=
                        aupsert m'.ordersByID id
                          { o with Status := .Cancelled } } := by
            simp only [MemoryOrders.Update, hords, hoid, hlk]
          rw [hupd] at h
          dsimp only at h
          simp only [Prod.mk.injEq, Except.ok.injEq] at h
          obtain ⟨ho₁, hm₁⟩ := h
          refine ⟨by omega, o, rfl, hst, ho₁.symm, ?_, ?_, ?_, ?_, ?_⟩
          · rw [← hm₁]
            show alookup
              (aupsert m'.ordersByID id { o with Status := .Cancelled }) id
              = some o₁
            rw [alookup_aupsert, if_pos rfl, ho₁]
          · rw [← hm₁]
            exact hsh
          · rw [← hm₁]
            exact hnp
          · rw [← hm₁]
            exact hno
          · rw [← hm₁]
            exact ⟨hwf'.1, hwf'.2.1, hwf'.2.2.1,
              aupsert_forall hwf'.2.2.2.1 hoid, hwf'.2.2.2.2⟩
      · rw [if_pos hst] at h
        simp at h

/-- `CancelOrder` against a stored non-Confirmed order: InvalidState and
no mutation (the status check precedes every write). -/
theorem CancelOrder_not_confirmed {m : MemoryStore} {id : Int} {o : Order}
    (hid : 0 < id) (hlk : alookup m.ordersByID id = some o)
    (hst : o.Status ≠ .Confirmed) :
    OrderService.CancelOrder m id = (.error .ErrInvalidState, m) := by
  unfold OrderService.CancelOrder
  rw [if_neg (by omega)]
  simp only [MemoryOrders.GetByID, hlk]
  rw [if_pos hst]

/-! ### Concrete stores for counterexamples and witnesses -/

/-- One product, ID 1, stock 5. -/
def cexStore1 : MemoryStore :=
  { nextProdID := 2, nextOrderID := 1,
    productsByID := [(1, ⟨1, "A", "SKU1", 10, 5⟩)], ordersByID := [] }

/-- One product, ID 1, stock 3. -/
def cexStore2 : MemoryStore :=
  { nextProdID := 2, nextOrderID := 1,
    productsByID := [(1, ⟨1, "A", "SKU1", 10, 3⟩)], ordersByID := [] }

/-- No products; one Confirmed order with an empty item list. -/
def w7store : MemoryStore :=
  { nextProdID := 1, nextOrderID := 2,
    productsByID := [], ordersByID := [(1, ⟨1, "J", [], .Confirmed⟩)] }

/-- The store `w7store` after its order has been cancelled. -/
def w7cancelled : MemoryStore :=
  { nextProdID := 1, nextOrderID := 2,
    productsByID := [], ordersByID := [(1, ⟨1, "J", [], .Cancelled⟩)] }

/-! ### Claim C1 -/

/-- C1 counterexample: with two line items of quantity 2 for the same
product (stock 5, aggregated demand 4), `CreateOrder` succeeds but the
persisted stock is 3, not 5 − 4 = 1: each item is applied against the
same pre-call read and the later copy overwrites the earlier one. -/
theorem CreateOrder_dup_items_stock_cex :
    ((OrderService.CreateOrder cexStore1 "John" [⟨1, 2⟩, ⟨1, 2⟩]).1 =
      .ok ⟨1, "John", [⟨1, 2⟩, ⟨1, 2⟩], .Confirmed⟩) ∧
    sumQtyFor [⟨1, 2⟩, ⟨1, 2⟩] 1 = 4 ∧
    alookup cexStore1.productsByID 1 = some ⟨1, "A", "SKU1", 10, 5⟩ ∧
    alookup (OrderService.CreateOrder cexStore1 "John"
        [⟨1, 2⟩, ⟨1, 2⟩]).2.productsByID 1 = some ⟨1, "A", "SKU1", 10, 3⟩ ∧
    (3 : Int) ≠ 5 - 4 :=
  ⟨rfl, rfl, rfl, rfl, by decide⟩

/-- C1 (amended): after a successful `CreateOrder` on a well-formed
store, each referenced product's stock equals its pre-call stock minus
the quantity of the *last* submitted line item referencing it (equal to
the per-product summed demand exactly when no product is referenced
twice); unreferenced products are untouched. -/
theorem CreateOrder_stock_last_item {m : MemoryStore} {c : String}
    {items : List OrderItem} {o : Order} {m₁ : MemoryStore}
    (hwf : StoreWF m) (h : OrderService.CreateOrder m c items = (.ok o, m₁)) :
    ∀ pid,
      (lastItemQty items pid = none →
        alookup m₁.productsByID pid = alookup m.productsByID pid) ∧
      (∀ q, lastItemQty items pid = some q →
        ∃ p, alookup m.productsByID pid = some p ∧
          alookup m₁.productsByID pid = some { p with Stock := p.Stock - q }) :=
  (CreateOrder_ok_dest hwf h).2.2.2.2.2.2.1

theorem CreateOrder_stock_last_item_w :
    alookup cexStore1.productsByID 1 = some ⟨1, "A", "SKU1", 10, 5⟩ ∧
    alookup (OrderService.CreateOrder cexStore1 "J"
        [⟨1, 2⟩]).2.productsByID 1 =
      some { (⟨1, "A", "SKU1", 10, 5⟩ : Product) with
              Stock := (⟨1, "A", "SKU1", 10, 5⟩ : Product).Stock - 2 } := by
  obtain ⟨p, hp, hp'⟩ :=
    ((CreateOrder_stock_last_item (by decide)
        (rfl : OrderService.CreateOrder cexStore1 "J" [⟨1, 2⟩] =
          (.ok ⟨1, "J", [⟨1, 2⟩], .Confirmed⟩,
           { nextProdID := 2, nextOrderID := 2,
             productsByID := [(1, ⟨1, "A", "SKU1", 10, 3⟩)],
             ordersByID := [(1, ⟨1, "J", [⟨1, 2⟩], .Confirmed⟩)] }))) 1).2
      2 rfl
  have hpe : (⟨1, "A", "SKU1", 10, 5⟩ : Product) = p :=
    Option.some.inj ((rfl : alookup cexStore1.productsByID 1 =
      some ⟨1, "A", "SKU1", 10, 5⟩).symm.trans hp)
  cases hpe
  exact ⟨hp, hp'⟩

/-! ### Claim C2 -/

/-- C2 counterexample: product stock 3, two line items of quantity 2 for
it — the aggregated demand 4 exceeds the available stock 3, yet the call
succeeds (each item is checked alone against the same read) and mutates
the store, instead of failing NotEnoughStock. -/
theorem CreateOrder_aggregate_check_cex :
    ((OrderService.CreateOrder cexStore2 "John" [⟨1, 2⟩, ⟨1, 2⟩]).1 =
      .ok ⟨1, "John", [⟨1, 2⟩, ⟨1, 2⟩], .Confirmed⟩) ∧
    alookup cexStore2.productsByID 1 = some ⟨1, "A", "SKU1", 10, 3⟩ ∧
    sumQtyFor [⟨1, 2⟩, ⟨1, 2⟩] 1 = 4 ∧ ((3 : Int) < 4) ∧
    alookup (OrderService.CreateOrder cexStore2 "John"
        [⟨1, 2⟩, ⟨1, 2⟩]).2.productsByID 1 = some ⟨1, "A", "SKU1", 10, 1⟩ :=
  ⟨rfl, rfl, rfl, by decide, rfl⟩

/-- C2 (amended): on a well-formed store with field-valid inputs, every
failing `CreateOrder` leaves the store unmutated; when all referenced
products exist and some *single* line item's quantity exceeds its
product's stock the error is NotEnoughStock; when some referenced
product is missing and every line item with an existing product fits
singly, the error is NotFound.  The check is per line item, not per
aggregated demand. -/
theorem CreateOrder_failure_cases {m : MemoryStore} {c : String}
    {items : List OrderItem} (hwf : StoreWF m) (hc : c ≠ "")
    (hne : items ≠ [])
    (hv : ∀ it ∈ items, 0 < it.ProductID ∧ 0 < it.Quantity) :
    (∀ e m₁, OrderService.CreateOrder m c items = (.error e, m₁) → m₁ = m) ∧
    ((∀ it ∈ items, (alookup m.productsByID it.ProductID).isSome) →
      (∃ it ∈ items, ∃ p, alookup m.productsByID it.ProductID = some p ∧
        p.Stock < it.Quantity) →
      OrderService.CreateOrder m c items = (.error .ErrNotEnoughStock, m)) ∧
    ((∃ it ∈ items, alookup m.productsByID it.ProductID = none) →
      (∀ it ∈ items, ∀ p, alookup m.productsByID it.ProductID = some p →
        it.Quantity ≤ p.Stock) →
      OrderService.CreateOrder m c items = (.error .ErrNotFound, m)) := by
  have h1 : ¬ (c = "" ∨ items = []) := by
    push_neg
    exact ⟨hc, hne⟩
  have h2 : ¬ (items.any (fun it => it.ProductID ≤ 0 ∨ it.Quantity ≤ 0) = true) := by
    simp only [List.any_eq_true, decide_eq_true_eq]
    push_neg
    intro it hit
    have := hv it hit
    omega
  refine ⟨fun e m₁ h => CreateOrder_err_unchanged hwf h, ?_, ?_⟩
  · intro hex hbad
    unfold OrderService.CreateOrder
    rw [if_neg h1, if_neg h2, reserveLoop_nes hex hbad]
  · intro hmiss hfit
    unfold OrderService.CreateOrder
    rw [if_neg h1, if_neg h2, reserveLoop_missing hfit hmiss]

theorem CreateOrder_failure_cases_w :
    OrderService.CreateOrder cexStore2 "John" [⟨1, 4⟩] =
      (.error .ErrNotEnoughStock, cexStore2) :=
  (CreateOrder_failure_cases (by decide) (by decide) (by decide)
      (by decide)).2.1 (by decide)
    ⟨⟨1, 4⟩, by decide, ⟨1, "A", "SKU1", 10, 3⟩, rfl, by decide⟩

/-! ### Claim C6 -/

/-- C6 counterexample: stock 5, order [(1,2),(1,2)] — creation persists
only the last decrement (stock 3), cancellation restores the full sum
(+4), ending at stock 7 ≠ 5: the round trip does not restore stock when
a product is referenced by duplicate line items. -/
theorem CreateCancel_roundtrip_cex :
    ((OrderService.CreateOrder cexStore1 "J" [⟨1, 2⟩, ⟨1, 2⟩]).1 =
      .ok ⟨1, "J", [⟨1, 2⟩, ⟨1, 2⟩], .Confirmed⟩) ∧
    ((OrderService.CancelOrder
        (OrderService.CreateOrder cexStore1 "J" [⟨1, 2⟩, ⟨1, 2⟩]).2 1).1 =
      .ok ⟨1, "J", [⟨1, 2⟩, ⟨1, 2⟩], .Cancelled⟩) ∧
    alookup (OrderService.CancelOrder
        (OrderService.CreateOrder cexStore1 "J" [⟨1, 2⟩, ⟨1, 2⟩]).2
        1).2.productsByID 1 = some ⟨1, "A", "SKU1", 10, 7⟩ ∧
    alookup cexStore1.productsByID 1 = some ⟨1, "A", "SKU1", 10, 5⟩ ∧
    (7 : Int) ≠ 5 :=
  ⟨rfl, rfl, rfl, rfl, by decide⟩

/-- C6 (amended): when the submitted line items reference pairwise
distinct products, a successful `CreateOrder` followed immediately by
`CancelOrder` of the created order succeeds, sets the status to
Cancelled, and restores every product (touched or not) to its exact
pre-order stored state. -/
theorem CreateCancel_roundtrip_distinct {m : MemoryStore} {c : String}
    {items : List OrderItem} {o : Order} {m₁ : MemoryStore}
    (hwf : StoreWF m) (hnd : (items.map OrderItem.ProductID).Nodup)
    (h : OrderService.CreateOrder m c items = (.ok o, m₁)) :
    ∃ o₂ m₂, OrderService.CancelOrder m₁ o.ID = (.ok o₂, m₂) ∧
      o₂.Status = .Cancelled ∧
      ∀ pid, alookup m₂.productsByID pid = alookup m.productsByID pid := by
  obtain ⟨-, hval, ho, hords, hno1, hnp1, hprod, hwf₁⟩ := CreateOrder_ok_dest hwf h
  have hoID : o.ID = m.nextOrderID := by rw [ho]
  have hid : 0 < o.ID := by rw [hoID]; exact hwf.2.1
  have hitems : o.Items = items := by rw [ho]
  have hlk₁ : alookup m₁.ordersByID o.ID = some o := by
    rw [hords, hoID, alookup_aupsert, if_pos rfl]
  have hstatus : o.Status = .Confirmed := by rw [ho]
  have hex : ∀ it ∈ o.Items, (alookup m₁.productsByID it.ProductID).isSome := by
    rw [hitems]
    intro it hit
    obtain ⟨hl, -⟩ := lastItemQty_nodup hnd hit
    obtain ⟨p, -, hm₁p⟩ := (hprod it.ProductID).2 it.Quantity hl
    rw [hm₁p]
    rfl
  obtain ⟨m₂', hrl⟩ := restoreLoop_total hwf₁ hex
  obtain ⟨hsh, hords₂, -, -, -⟩ := restoreLoop_ok_dest hwf₁ hrl
  have hco := CancelOrder_builds hwf₁ hid hlk₁ hstatus hrl hords₂
  refine ⟨{ o with Status := .Cancelled }, _, hco, rfl, ?_⟩
  intro pid
  show alookup m₂'.productsByID pid = alookup m.productsByID pid
  rw [hsh pid, hitems]
  by_cases hcase : ∃ it ∈ items, it.ProductID = pid
  · obtain ⟨it, hit, rfl⟩ := hcase
    obtain ⟨hl, hs⟩ := lastItemQty_nodup hnd hit
    obtain ⟨p, hp, hm₁p⟩ := (hprod it.ProductID).2 it.Quantity hl
    rw [hm₁p, hp]
    simp only [Option.map_some', hs]
    have harith : p.Stock - it.Quantity + it.Quantity = p.Stock := by omega
    rw [harith]
    have hr := wf_product_range hwf hp
    rw [wrap64_eq_self hr.1 hr.2]
  · push_neg at hcase
    rw [(hprod pid).1 (lastItemQty_eq_none hcase)]
    rcases hmp : alookup m.productsByID pid with - | p
    · rfl
    · have hr := wf_product_range hwf hmp
      simp [sumQtyFor_eq_zero hcase, wrap64_eq_self hr.1 hr.2]

/-- The store after the create/cancel round trip from `cexStore1`. -/
def rtStore : MemoryStore :=
  { nextProdID := 2, nextOrderID := 2,
    productsByID := [(1, ⟨1, "A", "SKU1", 10, 5⟩)],
    ordersByID := [(1, ⟨1, "J", [⟨1, 2⟩], .Cancelled⟩)] }

theorem CreateCancel_roundtrip_distinct_w :
    OrderService.CancelOrder
        (OrderService.CreateOrder cexStore1 "J" [⟨1, 2⟩]).2 1 =
      (.ok ⟨1, "J", [⟨1, 2⟩], .Cancelled⟩, rtStore) ∧
    (⟨1, "J", [⟨1, 2⟩], .Cancelled⟩ : Order).Status = .Cancelled ∧
    alookup rtStore.productsByID 1 = alookup cexStore1.productsByID 1 := by
  obtain ⟨o₂, m₂, hco, hstat, hall⟩ :=
    CreateCancel_roundtrip_distinct (by decide) (by decide)
      (rfl : OrderService.CreateOrder cexStore1 "J" [⟨1, 2⟩] =
        (.ok ⟨1, "J", [⟨1, 2⟩], .Confirmed⟩,
         { nextProdID := 2, nextOrderID := 2,
           productsByID := [(1, ⟨1, "A", "SKU1", 10, 3⟩)],
           ordersByID := [(1, ⟨1, "J", [⟨1, 2⟩], .Confirmed⟩)] }))
  have h2 := (rfl : OrderService.CancelOrder
      (OrderService.CreateOrder cexStore1 "J" [⟨1, 2⟩]).2 1 =
      (.ok ⟨1, "J", [⟨1, 2⟩], .Cancelled⟩, rtStore)).symm.trans hco
  rw [Prod.mk.injEq] at h2
  obtain ⟨h3, h4⟩ := h2
  cases h4
  cases Except.ok.inj h3
  exact ⟨hco, rfl, hall 1⟩

/-! ### Claim C7 -/

/-- C7: cancelling an order whose status is not Confirmed fails with
InvalidState and mutates nothing; consequently a second cancel of a
just-cancelled order fails with InvalidState, again without mutation. -/
theorem CancelOrder_invalid_state {m : MemoryStore} {id : Int}
    (hwf : StoreWF m) :
    (∀ o, alookup m.ordersByID id = some o → o.Status ≠ .Confirmed →
      0 < id →
      OrderService.CancelOrder m id = (.error .ErrInvalidState, m)) ∧
    (∀ o₁ m₁, OrderService.CancelOrder m id = (.ok o₁, m₁) →
      OrderService.CancelOrder m₁ id = (.error .ErrInvalidState, m₁)) := by
  constructor
  · intro o hlk hst hid
    exact CancelOrder_not_confirmed hid hlk hst
  · intro o₁ m₁ h
    obtain ⟨hid, o, hlk, hst, ho₁, hlk₁, -, -, -⟩ := CancelOrder_ok_dest hwf h
    refine CancelOrder_not_confirmed hid hlk₁ ?_
    intro hc
    rw [ho₁] at hc
    cases hc

theorem CancelOrder_invalid_state_w :
    OrderService.CancelOrder w7cancelled 1 =
      (.error .ErrInvalidState, w7cancelled) :=
  (CancelOrder_invalid_state (by decide)).2
    ⟨1, "J", [], .Cancelled⟩ w7cancelled
    (rfl : OrderService.CancelOrder w7store 1 =
      (.ok ⟨1, "J", [], .Cancelled⟩, w7cancelled))

/-! ### Claim C9 -/

/-- C9: cancelling a Confirmed order whose item list is empty succeeds,
sets the status to Cancelled, and leaves the product table untouched. -/
theorem CancelOrder_empty_items {m : MemoryStore} {id : Int} {o : Order}
    (hwf : StoreWF m) (hid : 0 < id)
    (hlk : alookup m.ordersByID id = some o) (hst : o.Status = .Confirmed)
    (hempty : o.Items = []) :
    OrderService.CancelOrder m id =
      (.ok { o with Status := .Cancelled },
       { m with
          ordersByID :=
            aupsert m.ordersByID id { o with Status := .Cancelled } }) ∧
    ({ m with
        ordersByID :=
          aupsert m.ordersByID id
            { o with Status := .Cancelled } }).productsByID =
      m.productsByID ∧
    ({ o with Status := .Cancelled } : Order).Status = .Cancelled := by
  have hrl : restoreLoop m o.Items = (.ok (), m) := by
    rw [hempty]
    rfl
  exact ⟨CancelOrder_builds hwf hid hlk hst hrl rfl, rfl, rfl⟩

theorem CancelOrder_empty_items_w :
    OrderService.CancelOrder w7store 1 =
      (.ok ⟨1, "J", [], .Cancelled⟩,
       { w7store with
          ordersByID :=
            aupsert w7store.ordersByID 1 ⟨1, "J", [], .Cancelled⟩ }) :=
  (CancelOrder_empty_items (by decide) (by decide)
      (rfl : alookup w7store.ordersByID 1 = some ⟨1, "J", [], .Confirmed⟩)
      rfl rfl).1

/-! ### PartialReturn walk lemmas -/

/-- Product 1 with stock 0; one Confirmed order holding 4 units of it. -/
def prStoreB : MemoryStore :=
  { nextProdID := 2, nextOrderID := 2,
    productsByID := [(1, ⟨1, "A", "SKU1", 10, 0⟩)],
    ordersByID := [(1, ⟨1, "J", [⟨1, 4⟩], .Confirmed⟩)] }

/-- C3 counterexample: the order holds 4 units of product 1, yet a
return of two entries of 3 each (total 6 > 4) is accepted: the
over-return check compares each entry alone against the held quantity.
The call succeeds, empties the order and restores 4 units of stock
instead of failing InvalidInput with no mutation. -/
theorem PartialReturn_dup_entries_cex :
    ((OrderService.PartialReturn prStoreB 1 [⟨1, 3⟩, ⟨1, 3⟩]).1 =
      .ok ⟨1, "J", [], .Confirmed⟩) ∧
    sumQtyFor [⟨1, 3⟩, ⟨1, 3⟩] 1 = 6 ∧
    sumQtyFor [(⟨1, 4⟩ : OrderItem)] 1 = 4 ∧ ((4 : Int) < 6) ∧
    alookup (OrderService.PartialReturn prStoreB 1
        [⟨1, 3⟩, ⟨1, 3⟩]).2.productsByID 1 = some ⟨1, "A", "SKU1", 10, 4⟩ ∧
    alookup prStoreB.productsByID 1 = some ⟨1, "A", "SKU1", 10, 0⟩ :=
  ⟨rfl, rfl, rfl, by decide, rfl, rfl⟩

/-- C3 (amended): a `PartialReturn` against a Confirmed order fails with
InvalidInput and mutates nothing when some *single* entry of
`returnItems` requests more than the order currently holds for that
product; the summed request across duplicate entries is not checked. -/
theorem PartialReturn_entry_over_return {m : MemoryStore} {id : Int}
    {returns : List OrderItem} {o : Order} (hid : 0 < id)
    (hne : returns ≠ [])
    (hv : ∀ r ∈ returns, 0 < r.ProductID ∧ 0 < r.Quantity)
    (hlk : alookup m.ordersByID id = some o) (hst : o.Status = .Confirmed)
    (hbad : ∃ r ∈ returns, sumQtyFor o.Items r.ProductID < r.Quantity) :
    OrderService.PartialReturn m id returns = (.error .ErrInvalidInput, m) := by
  unfold OrderService.PartialReturn
  rw [if_neg (by push_neg; exact ⟨by omega, hne⟩)]
  rw [if_neg (by
    simp only [List.any_eq_true, decide_eq_true_eq]
    push_neg
    intro r hr
    have := hv r hr
    omega)]
  simp only [MemoryOrders.GetByID, hlk]
  rw [if_neg (by simp [hst])]
  rw [if_pos (by
    simp only [List.any_eq_true, decide_eq_true_eq]
    exact hbad)]

theorem PartialReturn_entry_over_return_w :
    OrderService.PartialReturn prStoreB 1 [⟨1, 5⟩] =
      (.error .ErrInvalidInput, prStoreB) :=
  PartialReturn_entry_over_return (by decide) (by decide) (by decide)
    (rfl : alookup prStoreB.ordersByID 1 =
      some ⟨1, "J", [⟨1, 4⟩], .Confirmed⟩)
    rfl ⟨⟨1, 5⟩, by decide, by decide⟩

/-! ### Claim C4 -/

/-- C8: the claimed invariant — no operation sequence ever leaves a
negative stock at rest — fails for the program because Go's `int64`
stock additions wrap.  A reachable three-call trace: create a product
with stock 2^63 − 1; `CreateOrder` with duplicate line items
[(1, 2^63 − 2), (1, 1)] (each passes the per-item check against the same
pre-call read, and the last copy wins, persisting stock 2^63 − 2);
`PartialReturn` of 2^63 − 1 units (the per-entry check passes, as the
order holds exactly (2^63 − 2) + 1 = 2^63 − 1).  The walk then restores
2^63 − 2 and 1 onto stock 2^63 − 2; the first addition wraps to −4, the
second yields −3, and −3 is persisted at rest. -/
theorem stock_wraps_negative_at_rest :
    alookup (runOps NewMemoryStore
        [Op.ProductCreate ⟨0, "A", "S", 1, 9223372036854775807⟩,
         Op.CreateOrder "J" [⟨1, 9223372036854775806⟩, ⟨1, 1⟩],
         Op.PartialReturn 1 [⟨1, 9223372036854775807⟩]]).productsByID 1 =
      some ⟨1, "A", "S", 1, -3⟩ ∧
    ((-3 : Int) < 0) :=
  ⟨rfl, by decide⟩

/-! ### Claim C10 -/

/-- C10: product creation fails with InvalidInput and stores nothing
when the name or SKU is empty or the price or stock negative; otherwise
it succeeds and stores the product under a fresh (not previously
assigned) positive identifier, on any store whose counter is positive
and dominates the existing keys — true of every reachable store. -/
theorem ProductService_Create_spec {m : MemoryStore} {p : Product} :
    ((p.Name = "" ∨ p.SKU = "" ∨ p.Price < 0 ∨ p.Stock < 0) →
      ProductService.Create m p = (.error .ErrInvalidInput, m)) ∧
    (¬ (p.Name = "" ∨ p.SKU = "" ∨ p.Price < 0 ∨ p.Stock < 0) →
      0 < m.nextProdID → (∀ e ∈ m.productsByID, e.1 < m.nextProdID) →
      ProductService.Create m p =
        (.ok { p with ID := m.nextProdID },
         { m with
            nextProdID := m.nextProdID + 1,
            productsByID := aupsert m.productsByID m.nextProdID
              { p with ID := m.nextProdID } }) ∧
      0 < m.nextProdID ∧
      alookup m.productsByID m.nextProdID = none) := by
  constructor
  · intro hbad
    unfold ProductService.Create
    rw [if_pos hbad]
  · intro hok hpos hlt
    refine ⟨?_, hpos, alookup_eq_none_of_lt hlt⟩
    unfold ProductService.Create
    rw [if_neg hok]
    rfl

theorem ProductService_Create_spec_w :
    ProductService.Create NewMemoryStore ⟨0, "A", "S", 1, 2⟩ =
      (.ok ⟨1, "A", "S", 1, 2⟩,
       { nextProdID := 2, nextOrderID := 1,
         productsByID := [(1, ⟨1, "A", "S", 1, 2⟩)], ordersByID := [] }) ∧
    (0 : Int) < 1 ∧ alookup NewMemoryStore.productsByID 1 = none :=
  (ProductService_Create_spec (m := NewMemoryStore)
      (p := ⟨0, "A", "S", 1, 2⟩)).2 (by decide) (by decide) (by decide)

end April
